import Mathlib

/-!
Verification of the ManagerX-Handler translation engine
(`src/mx_handler/translation_handler.py`).

The Python module is shallowly embedded below:

* `YVal`/`Tree` model the values produced by `yaml.safe_load` (a message
  tree is a Python `dict` from strings to nested values);
* Python dictionaries are modelled as association lists with the exact
  insertion/removal semantics of `d[k] = v`, `d.pop(k, None)` and `d.get(k)`;
* `datetime.now()` is modelled by an explicit `now : Nat` argument threaded
  into every operation that reads the clock, and `timedelta` values live in
  the same abstract time unit;
* a Python statement that can raise is modelled in `Except String`, the
  state at the raise point being returned alongside the error so that
  `try`/`except` handlers can be modelled faithfully.
-/

namespace MXH


/-- Values that `yaml.safe_load` can produce and that the handler inspects:
strings, `None`, booleans, integers, lists and string-keyed mappings. -/
inductive YVal where
  | str : String → YVal
  | null : YVal
  | bool : Bool → YVal
  | int : Int → YVal
  | list : List YVal → YVal
  | map : List (String × YVal) → YVal
deriving Repr

/-- A parsed message tree: the Python `dict` underlying a translation file. -/
abbrev Tree := List (String × YVal)

/-- Python `d.get(k)` / `k in d` lookup on an association-list dictionary. -/
def pyLookup (d : List (String × α)) (k : String) : Option α :=
  match d with
  | [] => none
  | (k', v) :: rest => if k' = k then some v else pyLookup rest k

/-- Python `d[k] = v`: replace the value in place when the key is present,
append a new binding otherwise. -/
def pyDictSet (d : List (String × α)) (k : String) (v : α) : List (String × α) :=
  match d with
  | [] => [(k, v)]
  | (k', v') :: rest => if k' = k then (k, v) :: rest else (k', v') :: pyDictSet rest k v

/-- Python `d.pop(k, None)` / `del d[k]`: drop the binding of `k` if present. -/
def pyDictPop (d : List (String × α)) (k : String) : List (String × α) :=
  match d with
  | [] => []
  | (k', v') :: rest => if k' = k then rest else (k', v') :: pyDictPop rest k

/-- Truthiness of a Python `Optional[str]`: `None` and `""` are falsy. -/
def pyTruthyStrOpt : Option String → Bool
  | none => false
  | some s => s ≠ ""

/-- Truthiness of a YAML value (`data or {}` uses it):
`None`, `""`, `False`, `0`, `[]` and `{}` are falsy. -/
def YVal.pyFalsy : YVal → Bool
  | .null => true
  | .str s => s = ""
  | .bool b => !b
  | .int n => n = 0
  | .list xs => xs.isEmpty
  | .map m => m.isEmpty

/-- The state of `TranslationCache`: the `_cache` dict of trees, the
`_timestamps` dict of insertion times, and the `_ttl` duration. -/
structure TranslationCache where
  cache : List (String × Tree)
  timestamps : List (String × Nat)
  ttl : Nat
deriving Repr

/-- `TranslationCache.__init__`: empty maps and the configured TTL. -/
def TranslationCache.mkEmpty (ttlMinutes : Nat) : TranslationCache :=
  { cache := [], timestamps := [], ttl := ttlMinutes }

/-- `TranslationCache.update_ttl`. -/
def TranslationCache.updateTtl (c : TranslationCache) (ttlMinutes : Nat) : TranslationCache :=
  { c with ttl := ttlMinutes }

/-- `TranslationCache.get` (translation_handler.py lines 190-201): absent key
returns `None`; an entry older than the TTL is deleted from both maps and
reported absent; otherwise the stored tree is returned.  The read of
`self._timestamps[key]` raises `KeyError` when the key is missing there,
modelled by the `Except` error. -/
def TranslationCache.get (c : TranslationCache) (now : Nat) (key : String) :
    TranslationCache × Except String (Option Tree) :=
  match pyLookup c.cache key with
  | none => (c, .ok none)
  | some tree =>
    match pyLookup c.timestamps key with
    | none => (c, .error "KeyError")
    | some t =>
      if c.ttl < now - t then
        ({ c with cache := pyDictPop c.cache key, timestamps := pyDictPop c.timestamps key },
         .ok none)
      else
        (c, .ok (some tree))

/-- `TranslationCache.set`: store the tree and stamp the current time. -/
def TranslationCache.set (c : TranslationCache) (now : Nat) (key : String) (value : Tree) :
    TranslationCache :=
  { c with cache := pyDictSet c.cache key value,
           timestamps := pyDictSet c.timestamps key now }

/-- `TranslationCache.clear`: `if key:` pops one entry, the `else` branch
(taken for `None` and for the empty string) clears both maps. -/
def TranslationCache.clear (c : TranslationCache) (key : Option String) : TranslationCache :=
  if pyTruthyStrOpt key then
    { c with cache := pyDictPop c.cache (key.getD ""),
             timestamps := pyDictPop c.timestamps (key.getD "") }
  else
    { c with cache := [], timestamps := [] }

/-- The dictionary returned by `TranslationCache.get_stats`. -/
structure CacheStats where
  entries : Nat
  languages : List String
  oldest_entry : Option Nat
deriving Repr

/-- `TranslationCache.get_stats`: entry count, key list, and
`min(self._timestamps.values())` guarded by a truthiness check. -/
def TranslationCache.getStats (c : TranslationCache) : CacheStats :=
  { entries := c.cache.length,
    languages := c.cache.map Prod.fst,
    oldest_entry :=
      match c.timestamps.map Prod.snd with
      | [] => none
      | t :: ts => some (ts.foldl Nat.min t) }

/-- The mutable class-level state of `TranslationHandler`: the cache and the
`_file_watchers` dict mapping source codes to last-seen modification times. -/
structure HandlerState where
  cache : TranslationCache
  fileWatchers : List (String × Nat)
deriving Repr

/-- A source file on disk, as the loader observes it: its modification time
and the result of `yaml.safe_load` on its contents (`none` models a
`yaml.YAMLError`, `some v` a successful parse — `v` may be `null` for an
empty file). -/
structure SourceFile where
  mtime : Nat
  parsed : Option YVal
deriving Repr

/-- The file system seen through `translation_path / f"{code}.yaml"`:
`none` when the file for a code does not exist. -/
abbrev FileSys := String → Option SourceFile

/-- Lines 358-378 of `load_messages`: read and parse the candidate's file.
`data = yaml.safe_load(f) or {}` replaces a falsy parse by the empty dict;
a non-dict `data` is a failed candidate; on success the tree is cached under
the requested `langCode` while the watcher entry is keyed by the candidate
`code`. -/
def readAndStore (file : SourceFile) (now : Nat) (langCode code : String)
    (st : HandlerState) : HandlerState × Option Tree :=
  match file.parsed with
  | none => (st, none)
  | some v =>
    let data := if v.pyFalsy then YVal.map [] else v
    match data with
    | .map m =>
      ({ cache := st.cache.set now langCode m,
         fileWatchers := pyDictSet st.fileWatchers code file.mtime }, some m)
    | _ => (st, none)

/-- One iteration of the fallback loop of `load_messages` (lines 342-385)
for candidate `code`.  A missing file skips the candidate; when the recorded
watcher time equals the file's mtime and reload is not forced, a truthy
cached entry for the candidate code is returned as is; every exception
raised inside the `try` block (including the `KeyError` that
`TranslationCache.get` may raise) makes the candidate fail. -/
def tryCandidate (fs : FileSys) (now : Nat) (langCode code : String)
    (forceReload : Bool) (st : HandlerState) : HandlerState × Option Tree :=
  match fs code with
  | none => (st, none)
  | some file =>
    if pyLookup st.fileWatchers code = some file.mtime ∧ forceReload = false then
      match TranslationCache.get st.cache now code with
      | (cache1, .error _) => ({ st with cache := cache1 }, none)
      | (cache1, .ok cachedOpt) =>
        let st1 : HandlerState := { st with cache := cache1 }
        match cachedOpt with
        | some t =>
          if t.isEmpty then readAndStore file now langCode code st1
          else (st1, some t)
        | none => readAndStore file now langCode code st1
    else
      readAndStore file now langCode code st

/-- The `for code in (lang_code, *fallback_languages)` loop. -/
def loadLoop (fs : FileSys) (now : Nat) (langCode : String) (forceReload : Bool) :
    List String → HandlerState → HandlerState × Option Tree
  | [], st => (st, none)
  | code :: rest, st =>
    match tryCandidate fs now langCode code forceReload st with
    | (st1, some t) => (st1, some t)
    | (st1, none) => loadLoop fs now langCode forceReload rest st1

/-- `TranslationHandler.load_messages` (lines 318-392): initial cache check
(whose `KeyError` is not caught and escapes), then the fallback loop, then
the exhaustion case that stores an empty tree under the requested code. -/
def loadMessages (fs : FileSys) (now : Nat) (fallbacks : List String)
    (st : HandlerState) (langCode : String) (forceReload : Bool) :
    HandlerState × Except String Tree :=
  match
    (if forceReload = false then
      match TranslationCache.get st.cache now langCode with
      | (c1, r) => ({ st with cache := c1 }, r)
    else (st, Except.ok none) : HandlerState × Except String (Option Tree))
  with
  | (st1, .error e) => (st1, .error e)
  | (st1, .ok (some t)) => (st1, .ok t)
  | (st1, .ok none) =>
    match loadLoop fs now langCode forceReload (langCode :: fallbacks) st1 with
    | (st2, some t) => (st2, .ok t)
    | (st2, none) =>
      ({ st2 with cache := st2.cache.set now langCode [] }, .ok [])

/-- The key-navigation loop shared by `get` and `get_async` (lines 434-444):
walk the path; a non-dict intermediate, an absent segment, or a stored
`None` (Python cannot tell the last two apart through `dict.get`) abort the
walk. -/
def navigatePath : YVal → List String → Option YVal
  | v, [] => some v
  | v, k :: rest =>
    match v with
    | .map m =>
      match pyLookup m k with
      | none => none
      | some .null => none
      | some v' => navigatePath v' rest
    | _ => none

/-- The failure modes of `str.format` that the handler distinguishes:
a missing keyword (`KeyError`) and every other formatting failure
(unbalanced braces and the like). -/
inductive FmtError where
  | keyErr
  | valueErr
deriving Repr, DecidableEq

/-- The opening brace character of a replacement field. -/
def braceL : Char := '\x7b'

/-- The closing brace character of a replacement field. -/
def braceR : Char := '\x7d'

/-- Scan a replacement field up to its closing brace, returning the field
name and the remaining characters; `none` when the brace is never closed. -/
def fieldSplit : List Char → Option (List Char × List Char)
  | [] => none
  | c :: rest =>
    if c = braceR then some ([], rest)
    else
      match fieldSplit rest with
      | some (name, r) => some (c :: name, r)
      | none => none

/-- A model of Python `value.format(**placeholders)` over the character
list of the template: doubled braces are literal, a replacement field is
looked up among the supplied keywords (`KeyError` when absent), and a
stray brace is a `ValueError`. -/
def pyFmtChars (ph : List (String × String)) : List Char → Except FmtError (List Char)
  | [] => .ok []
  | c :: rest =>
    if c = braceL then
      match rest with
      | [] => .error .valueErr
      | c2 :: rest2 =>
        if c2 = braceL then (braceL :: ·) <$> pyFmtChars ph rest2
        else
          match h : fieldSplit (c2 :: rest2) with
          | none => .error .valueErr
          | some (name, r) =>
            match pyLookup ph (String.mk name) with
            | none => .error .keyErr
            | some v => (v.data ++ ·) <$> pyFmtChars ph r
    else if c = braceR then
      match rest with
      | [] => .error .valueErr
      | c2 :: rest2 =>
        if c2 = braceR then (braceR :: ·) <$> pyFmtChars ph rest2
        else .error .valueErr
    else
      (c :: ·) <$> pyFmtChars ph rest
termination_by cs => cs.length
decreasing_by
  · simp; omega
  · have hfs : ∀ (l name r : List Char), fieldSplit l = some (name, r) →
        r.length < l.length := by
      intro l
      induction l with
      | nil => intro name r hh; simp [fieldSplit] at hh
      | cons c0 rest0 ih =>
        intro name r hh
        rw [fieldSplit] at hh
        split at hh
        · simp only [Option.some.injEq, Prod.mk.injEq] at hh
          rw [← hh.2]
          simp
        · revert hh
          split
          · rename_i name' r' heq
            intro hh
            simp only [Option.some.injEq, Prod.mk.injEq] at hh
            have hlen := ih name' r' heq
            rw [← hh.2]
            simp only [List.length_cons]
            omega
          · intro hh
            exact absurd hh (by simp)
    have hfs2 := hfs _ _ _ h
    simp only [List.length_cons] at hfs2
    simp only [List.length_cons]
    omega
  · simp; omega
  · simp

/-- The replacement-field names a template references; `none` when the
template is malformed (stray brace). -/
def fmtRefs : List Char → Option (List String)
  | [] => some []
  | c :: rest =>
    if c = braceL then
      match rest with
      | [] => none
      | c2 :: rest2 =>
        if c2 = braceL then fmtRefs rest2
        else
          match h : fieldSplit (c2 :: rest2) with
          | none => none
          | some (name, r) => (String.mk name :: ·) <$> fmtRefs r
    else if c = braceR then
      match rest with
      | [] => none
      | c2 :: rest2 =>
        if c2 = braceR then fmtRefs rest2
        else none
    else
      fmtRefs rest
termination_by cs => cs.length
decreasing_by
  · simp; omega
  · have hfs : ∀ (l name r : List Char), fieldSplit l = some (name, r) →
        r.length < l.length := by
      intro l
      induction l with
      | nil => intro name r hh; simp [fieldSplit] at hh
      | cons c0 rest0 ih =>
        intro name r hh
        rw [fieldSplit] at hh
        split at hh
        · simp only [Option.some.injEq, Prod.mk.injEq] at hh
          rw [← hh.2]
          simp
        · revert hh
          split
          · rename_i name' r' heq
            intro hh
            simp only [Option.some.injEq, Prod.mk.injEq] at hh
            have hlen := ih name' r' heq
            rw [← hh.2]
            simp only [List.length_cons]
            omega
          · intro hh
            exact absurd hh (by simp)
    have hfs2 := hfs _ _ _ h
    simp only [List.length_cons] at hfs2
    simp only [List.length_cons]
    omega
  · simp; omega
  · simp

/-- `value.format(**placeholders)` on a template string. -/
def pyFormat (template : String) (ph : List (String × String)) : Except FmtError String :=
  (pyFmtChars ph template.data).map String.mk

/-- The pure tail of `TranslationHandler.get` (lines 433-461) applied to an
already-loaded message tree: navigate the path, demand a string leaf, then
format; `KeyError` and any other formatting failure both return the
unformatted template. -/
def getFromTree (messages : Tree) (path : List String) (default : String)
    (ph : List (String × String)) : String :=
  match navigatePath (.map messages) path with
  | none => default
  | some (.str s) =>
    match pyFormat s ph with
    | .ok out => out
    | .error .keyErr => s
    | .error .valueErr => s
  | some _ => default

/-- The pure tail of `TranslationHandler.get_async` (lines 487-503): the
same navigation, with a single catch-all around the formatting call. -/
def getAsyncFromTree (messages : Tree) (path : List String) (default : String)
    (ph : List (String × String)) : String :=
  match navigatePath (.map messages) path with
  | none => default
  | some (.str s) =>
    match pyFormat s ph with
    | .ok out => out
    | .error _ => s
  | some _ => default

/-- `TranslationHandler.get_async` (lines 464-503): load (propagating the
uncaught `KeyError` of the initial cache check), then navigate and format. -/
def getAsync (fs : FileSys) (now : Nat) (fallbacks : List String)
    (st : HandlerState) (langCode : String) (path : List String)
    (default : String) (ph : List (String × String)) :
    HandlerState × Except String String :=
  match loadMessages fs now fallbacks st langCode false with
  | (st1, .error e) => (st1, .error e)
  | (st1, .ok messages) => (st1, .ok (getAsyncFromTree messages path default ph))

/-- The `for lang in languages` loop of `get_all_translations`
(lines 605-613): per-language failures are swallowed, and only a truthy
(non-empty) resolved string is stored into the results dict. -/
def getAllLoop (fs : FileSys) (now : Nat) (fallbacks : List String)
    (path : List String) :
    List String → HandlerState → List (String × String) →
    HandlerState × List (String × String)
  | [], st, results => (st, results)
  | lang :: rest, st, results =>
    match getAsync fs now fallbacks st lang path "" [] with
    | (st1, .error _) => getAllLoop fs now fallbacks path rest st1 results
    | (st1, .ok translation) =>
      getAllLoop fs now fallbacks path rest st1
        (if translation = "" then results else pyDictSet results lang translation)

/-- `TranslationHandler.get_all_translations` (lines 580-614) on an explicit
language list. -/
def getAllTranslations (fs : FileSys) (now : Nat) (fallbacks : List String)
    (path : List String) (languages : List String) (st : HandlerState) :
    HandlerState × List (String × String) :=
  getAllLoop fs now fallbacks path languages st []

/-- The nested `get_all_keys` helper of `validate_translations`
(lines 666-674): flatten a tree into the set of dot-joined full key paths,
descending into nested mappings; any non-mapping value makes its full key a
terminal. -/
def getAllKeysF : Tree → String → Finset String
  | [], _ => ∅
  | (k, YVal.map m) :: rest, pre =>
    getAllKeysF m (if pre = "" then k else pre ++ "." ++ k) ∪ getAllKeysF rest pre
  | (k, _) :: rest, pre =>
    {if pre = "" then k else pre ++ "." ++ k} ∪ getAllKeysF rest pre

/-- The result dictionary of `validate_translations`; the Python lists of
missing and extra keys are produced from set differences, whose iteration
order is unspecified, so they are modelled as finite sets. -/
structure ValidationResult where
  valid : Bool
  errors : List String
  warnings : List String
  missing_keys : Finset String
  extra_keys : Finset String

/-- `TranslationHandler.validate_translations` (lines 636-692): force-reload
the target tree; an empty (falsy) tree is a hard error; otherwise, for a
non-default language, load the default tree and diff the flattened key sets
in both directions.  The surrounding `try`/`except` converts any escaped
exception into a hard error. -/
def validateTranslations (fs : FileSys) (now : Nat) (fallbacks : List String)
    (defaultLang : String) (st : HandlerState) (langCode : String) :
    HandlerState × ValidationResult :=
  match loadMessages fs now fallbacks st langCode true with
  | (st1, .error e) =>
    (st1, { valid := false, errors := ["Validation error: " ++ e],
            warnings := [], missing_keys := ∅, extra_keys := ∅ })
  | (st1, .ok translations) =>
    if translations.isEmpty then
      (st1, { valid := false,
              errors := ["No translations found for '" ++ langCode ++ "'"],
              warnings := [], missing_keys := ∅, extra_keys := ∅ })
    else if langCode ≠ defaultLang then
      match loadMessages fs now fallbacks st1 defaultLang false with
      | (st2, .error e) =>
        (st2, { valid := false, errors := ["Validation error: " ++ e],
                warnings := [], missing_keys := ∅, extra_keys := ∅ })
      | (st2, .ok defaultTrans) =>
        let defaultKeys := getAllKeysF defaultTrans ""
        let currentKeys := getAllKeysF translations ""
        let missing := defaultKeys \ currentKeys
        let extra := currentKeys \ defaultKeys
        (st2, { valid := true, errors := [],
                warnings :=
                  if missing = ∅ then []
                  else [toString missing.card ++ " keys missing compared to " ++ defaultLang],
                missing_keys := missing, extra_keys := extra })
    else
      (st1, { valid := true, errors := [], warnings := [],
              missing_keys := ∅, extra_keys := ∅ })

/-- `TranslationHandler.clear_cache` (lines 694-709): clear the cache with
the given key, then drop either one watcher entry (`if lang_code:` truthy)
or all of them. -/
def clearCache (st : HandlerState) (langCode : Option String) : HandlerState :=
  let cache1 := st.cache.clear langCode
  if pyTruthyStrOpt langCode then
    { cache := cache1, fileWatchers := pyDictPop st.fileWatchers (langCode.getD "") }
  else
    { cache := cache1, fileWatchers := [] }

/-- The tree used by concrete counterexamples and witnesses. -/
def treeC1 : Tree := [("k", YVal.str "v")]

/-- A cache with one entry inserted at time `0` under TTL `5`. -/
def cacheC1 : TranslationCache :=
  { cache := [("en", treeC1)], timestamps := [("en", 0)], ttl := 5 }

/-- States of a `TranslationCache` reachable from construction by any
sequence of `get`, `set`, `clear` and `update_ttl` operations. -/
inductive CacheReachable : TranslationCache → Prop where
  | init (ttl : Nat) : CacheReachable (TranslationCache.mkEmpty ttl)
  | step_get (c : TranslationCache) (now : Nat) (key : String) :
      CacheReachable c → CacheReachable (TranslationCache.get c now key).1
  | step_set (c : TranslationCache) (now : Nat) (key : String) (value : Tree) :
      CacheReachable c → CacheReachable (TranslationCache.set c now key value)
  | step_clear (c : TranslationCache) (key : Option String) :
      CacheReachable c → CacheReachable (TranslationCache.clear c key)
  | step_ttl (c : TranslationCache) (n : Nat) :
      CacheReachable c → CacheReachable (TranslationCache.updateTtl c n)

/-- The synchrony invariant of the two cache maps: identical key sequences,
without duplicates. -/
def keysAligned (c : TranslationCache) : Prop :=
  c.cache.map Prod.fst = c.timestamps.map Prod.fst ∧ (c.cache.map Prod.fst).Nodup

/-- A concrete reachable cache state with one entry. -/
def cacheW10 : TranslationCache := TranslationCache.set (TranslationCache.mkEmpty 5) 3 "en" treeC1

/-- `TranslationHandler.get` (lines 395-461): the synchronous wrapper runs
`load_messages` to completion — an escaped exception propagates — then
navigates and formats. -/
def handlerGet (fs : FileSys) (now : Nat) (fallbacks : List String)
    (st : HandlerState) (langCode : String) (path : List String)
    (default : String) (ph : List (String × String)) :
    HandlerState × Except String String :=
  match loadMessages fs now fallbacks st langCode false with
  | (st1, .error e) => (st1, .error e)
  | (st1, .ok messages) => (st1, .ok (getFromTree messages path default ph))

/-- A source file whose read step cannot yield a message tree: a parse
error, or a truthy parse whose value is not a mapping. -/
def sourceRejected (f : SourceFile) : Prop :=
  f.parsed = none ∨ ∃ v, f.parsed = some v ∧ v.pyFalsy = false ∧ ∀ m, v ≠ YVal.map m

/-- A candidate code whose source is absent or invalid. -/
def candidateUnusable (fs : FileSys) (code : String) : Prop :=
  fs code = none ∨ ∃ f, fs code = some f ∧ sourceRejected f

/-- An empty handler state whose cache has TTL `5`. -/
def stEmpty : HandlerState := { cache := TranslationCache.mkEmpty 5, fileWatchers := [] }

/-- A file system with no sources at all. -/
def fsNone : FileSys := fun _ => none

/-- A file system where every code has a parseable source. -/
def fsAll : FileSys := fun _ => some { mtime := 0, parsed := some (YVal.map treeC1) }

/-- Tree of the fallback source used in the C2 witness. -/
def treeB : Tree := [("greet", YVal.str "hallo")]

/-- File system for the C2 witness: the requested code has an invalid
(non-mapping) source, the first fallback has none, the second parses. -/
def fsC2 : FileSys := fun code =>
  if code = "es" then some { mtime := 1, parsed := some (YVal.str "oops") }
  else if code = "de" then some { mtime := 7, parsed := some (YVal.map treeB) }
  else none

/-- Handler states reachable while the language `c` is never itself the
requested code of any `load_messages` call: construction, loads of other
languages, cache clearing, and reconfiguration of the cache object. -/
inductive ReachAvoiding (c : String) : HandlerState → Prop where
  | init (ttl : Nat) :
      ReachAvoiding c { cache := TranslationCache.mkEmpty ttl, fileWatchers := [] }
  | load (st : HandlerState) (fs : FileSys) (now : Nat) (fallbacks : List String)
      (lang : String) (force : Bool) : lang ≠ c → ReachAvoiding c st →
      ReachAvoiding c (loadMessages fs now fallbacks st lang force).1
  | clearStep (st : HandlerState) (key : Option String) : ReachAvoiding c st →
      ReachAvoiding c (clearCache st key)
  | newCache (st : HandlerState) (ttl : Nat) : ReachAvoiding c st →
      ReachAvoiding c { st with cache := TranslationCache.mkEmpty ttl }
  | setTtl (st : HandlerState) (ttl : Nat) : ReachAvoiding c st →
      ReachAvoiding c { st with cache := TranslationCache.updateTtl st.cache ttl }

/-- Tree with a non-string leaf at `a.b.c`. -/
def treeC5 : Tree := [("a", YVal.map [("b", YVal.map [("c", YVal.int 42)])])]

/-- Tree whose `a.b` is a string, so `a.b.c` has a non-mapping intermediate. -/
def treeC5b : Tree := [("a", YVal.map [("b", YVal.str "s")])]

/-- Tree holding the specification's example template. -/
def treeC6 : Tree := [("greet", YVal.str "Hello, \x7bname\x7d!")]

/-- The default-language tree of the specification's validator example. -/
def treeEN : Tree := [("a", YVal.map [("b", YVal.str "1"), ("c", YVal.str "2")])]

/-- The target-language tree of the specification's validator example. -/
def treeXX : Tree := [("a", YVal.map [("b", YVal.str "1")])]

/-- File system for the validator example: default language `en` and target
language `xx`. -/
def fs8 : FileSys := fun code =>
  if code = "en" then some { mtime := 0, parsed := some (YVal.map treeEN) }
  else if code = "xx" then some { mtime := 0, parsed := some (YVal.map treeXX) }
  else none

theorem fieldSplit_length {l : List Char} {name r : List Char}
    (h : fieldSplit l = some (name, r)) : r.length < l.length := by
  induction l generalizing name r with
  | nil => simp [fieldSplit] at h
  | cons c rest ih =>
    rw [fieldSplit] at h
    split at h
    · simp only [Option.some.injEq, Prod.mk.injEq] at h
      simp [← h.2]
    · revert h
      split
      · rename_i name' r' heq
        intro h
        simp only [Option.some.injEq, Prod.mk.injEq] at h
        have hlen := ih heq
        rw [← h.2]
        simp only [List.length_cons]
        omega
      · intro h
        exact absurd h (by simp)

theorem pyLookup_pyDictSet_self (d : List (String × α)) (k : String) (v : α) :
    pyLookup (pyDictSet d k v) k = some v := by
  induction d with
  | nil => simp [pyDictSet, pyLookup]
  | cons p rest ih =>
    obtain ⟨k', v'⟩ := p
    by_cases h : k' = k
    · simp [pyDictSet, h, pyLookup]
    · simp [pyDictSet, h, pyLookup, ih]

theorem pyLookup_pyDictSet_ne (d : List (String × α)) (k : String) (v : α)
    (k' : String) (h : k' ≠ k) : pyLookup (pyDictSet d k v) k' = pyLookup d k' := by
  have hkk' : ¬ k = k' := fun hh => h hh.symm
  induction d with
  | nil => simp [pyDictSet, pyLookup, hkk']
  | cons p rest ih =>
    obtain ⟨k0, v0⟩ := p
    by_cases h0 : k0 = k
    · subst h0
      simp [pyDictSet, pyLookup, hkk']
    · by_cases h1 : k0 = k'
      · simp [pyDictSet, pyLookup, h0, h1, h]
      · simp [pyDictSet, pyLookup, h0, h1, ih]

theorem pyLookup_pyDictPop_ne (d : List (String × α)) (k k' : String) (h : k' ≠ k) :
    pyLookup (pyDictPop d k) k' = pyLookup d k' := by
  have hkk' : ¬ k = k' := fun hh => h hh.symm
  induction d with
  | nil => simp [pyDictPop]
  | cons p rest ih =>
    obtain ⟨k0, v0⟩ := p
    by_cases h0 : k0 = k
    · subst h0
      simp [pyDictPop, pyLookup, hkk']
    · by_cases h1 : k0 = k'
      · simp [pyDictPop, pyLookup, h0, h1, h]
      · simp [pyDictPop, pyLookup, h0, h1, ih]

theorem pyLookup_pyDictPop_none (d : List (String × α)) (k k' : String) :
    pyLookup d k' = none → pyLookup (pyDictPop d k) k' = none := by
  induction d with
  | nil => intro h; simpa [pyDictPop] using h
  | cons p rest ih =>
    obtain ⟨k0, v0⟩ := p
    intro h
    simp only [pyLookup] at h
    by_cases h1 : k0 = k'
    · simp [h1] at h
    · simp only [if_neg h1] at h
      by_cases h0 : k0 = k
      · simpa [pyDictPop, h0] using h
      · simp [pyDictPop, h0, pyLookup, h1, ih h]

theorem pyLookup_eq_none_iff (d : List (String × α)) (k : String) :
    pyLookup d k = none ↔ k ∉ d.map Prod.fst := by
  induction d with
  | nil => simp [pyLookup]
  | cons p rest ih =>
    obtain ⟨k0, v0⟩ := p
    by_cases h : k0 = k
    · simp [pyLookup, h]
    · simp [pyLookup, h, ih, Ne.symm h]

theorem keys_pyDictSet (d : List (String × α)) (k : String) (v : α) :
    (pyDictSet d k v).map Prod.fst =
      if k ∈ d.map Prod.fst then d.map Prod.fst else d.map Prod.fst ++ [k] := by
  induction d with
  | nil => simp [pyDictSet]
  | cons p rest ih =>
    obtain ⟨k0, v0⟩ := p
    by_cases h : k0 = k
    · simp [pyDictSet, h]
    · simp only [pyDictSet, if_neg h, List.map_cons, ih]
      by_cases hm : k ∈ rest.map Prod.fst
      · simp [hm, Ne.symm h]
      · simp [hm, Ne.symm h]

theorem keys_pyDictPop (d : List (String × α)) (k : String) :
    (pyDictPop d k).map Prod.fst = (d.map Prod.fst).erase k := by
  induction d with
  | nil => simp [pyDictPop]
  | cons p rest ih =>
    obtain ⟨k0, v0⟩ := p
    by_cases h : k0 = k
    · simp [pyDictPop, h, List.erase_cons_head]
    · simp [pyDictPop, h, List.erase_cons_tail, ih]

/-- C1 counterexample: the claim requires an entry inserted at `t = 0` with
TTL `d = 5` to be treated as absent by a read at `t + d = 5`; the code's
strict comparison `now - t > ttl` makes that read return the stored tree
instead, leaving the cache untouched. -/
theorem cacheGet_at_exact_ttl_not_absent :
    0 + cacheC1.ttl ≤ 5 ∧
    TranslationCache.get cacheC1 5 "en" = (cacheC1, .ok (some treeC1)) ∧
    (TranslationCache.get cacheC1 5 "en").2 ≠ .ok none := by
  refine ⟨by decide, rfl, ?_⟩
  rw [show (TranslationCache.get cacheC1 5 "en").2 = .ok (some treeC1) from rfl]
  simp

/-- C1 (amended): an entry recorded at time `t` under TTL `d` is treated as
absent — returning `None` and deleting the stale entry from both maps — by
any read strictly after `t + d`, while a read at or before `t + d` returns
the stored tree and leaves the cache unchanged. -/
theorem cacheGet_expiry_strict_boundary (c : TranslationCache) (key : String)
    (tree : Tree) (t now : Nat)
    (hc : pyLookup c.cache key = some tree)
    (ht : pyLookup c.timestamps key = some t) :
    (t + c.ttl < now →
      TranslationCache.get c now key =
        ({ c with cache := pyDictPop c.cache key,
                  timestamps := pyDictPop c.timestamps key }, .ok none)) ∧
    (now ≤ t + c.ttl →
      TranslationCache.get c now key = (c, .ok (some tree))) := by
  unfold TranslationCache.get
  simp only [hc, ht]
  constructor
  · intro h
    rw [if_pos (show c.ttl < now - t by omega)]
  · intro h
    rw [if_neg (show ¬ c.ttl < now - t by omega)]

theorem cacheGet_expiry_strict_boundary_witness :
    TranslationCache.get cacheC1 6 "en" =
      ({ cacheC1 with cache := [], timestamps := [] }, .ok none) ∧
    TranslationCache.get cacheC1 5 "en" = (cacheC1, .ok (some treeC1)) :=
  ⟨(cacheGet_expiry_strict_boundary cacheC1 "en" treeC1 0 6 rfl rfl).1 (by decide),
   (cacheGet_expiry_strict_boundary cacheC1 "en" treeC1 0 5 rfl rfl).2 (by decide)⟩

/-- C9: passing the empty string to `TranslationCache.clear` and to
`clear_cache` behaves exactly like passing `None` — every cache entry, every
timestamp and every file watcher is removed — because the key is tested for
truthiness rather than compared against `None`. -/
theorem clear_empty_string_clears_all (c : TranslationCache) (st : HandlerState) :
    TranslationCache.clear c (some "") = TranslationCache.clear c none ∧
    (TranslationCache.clear c (some "")).cache = [] ∧
    (TranslationCache.clear c (some "")).timestamps = [] ∧
    (TranslationCache.clear c (some "")).ttl = c.ttl ∧
    clearCache st (some "") = clearCache st none ∧
    (clearCache st (some "")).cache.cache = [] ∧
    (clearCache st (some "")).cache.timestamps = [] ∧
    (clearCache st (some "")).fileWatchers = [] :=
  ⟨rfl, rfl, rfl, rfl, rfl, rfl, rfl, rfl⟩

theorem keysAligned_get (c : TranslationCache) (now : Nat) (key : String)
    (h : keysAligned c) : keysAligned (TranslationCache.get c now key).1 := by
  obtain ⟨heq, hnd⟩ := h
  unfold TranslationCache.get
  cases hcl : pyLookup c.cache key with
  | none => exact ⟨heq, hnd⟩
  | some tree =>
    cases hts : pyLookup c.timestamps key with
    | none => exact ⟨heq, hnd⟩
    | some t =>
      by_cases hexp : c.ttl < now - t
      · simp only [if_pos hexp]
        refine ⟨?_, ?_⟩
        · simp [keys_pyDictPop, heq]
        · simp only [keys_pyDictPop]
          exact hnd.erase _
      · simp only [if_neg hexp]
        exact ⟨heq, hnd⟩

theorem keysAligned_set (c : TranslationCache) (now : Nat) (key : String)
    (value : Tree) (h : keysAligned c) :
    keysAligned (TranslationCache.set c now key value) := by
  obtain ⟨heq, hnd⟩ := h
  unfold TranslationCache.set
  refine ⟨?_, ?_⟩
  · simp only [keys_pyDictSet]
    rw [heq]
  · simp only [keys_pyDictSet]
    by_cases hm : key ∈ c.cache.map Prod.fst
    · simpa [hm] using hnd
    · simp [hm, List.nodup_append, hnd]

theorem keysAligned_clear (c : TranslationCache) (key : Option String)
    (h : keysAligned c) : keysAligned (TranslationCache.clear c key) := by
  obtain ⟨heq, hnd⟩ := h
  unfold TranslationCache.clear
  by_cases hk : pyTruthyStrOpt key
  · simp only [hk, if_pos]
    refine ⟨?_, ?_⟩
    · simp [keys_pyDictPop, heq]
    · simp only [keys_pyDictPop]
      exact hnd.erase _
  · simp only [hk]
    exact ⟨rfl, List.nodup_nil⟩

theorem cacheReachable_keysAligned (c : TranslationCache) (h : CacheReachable c) :
    keysAligned c := by
  induction h with
  | init ttl => exact ⟨rfl, List.nodup_nil⟩
  | step_get c now key _ ih => exact keysAligned_get c now key ih
  | step_set c now key value _ ih => exact keysAligned_set c now key value ih
  | step_clear c key _ ih => exact keysAligned_clear c key ih
  | step_ttl c n _ ih => exact ih

/-- C10: in every state reachable by any sequence of cache operations, the
tree map and the timestamp map hold exactly the same keys, without
duplicates, so `get_stats` is self-consistent: the entry count is the length
of the language list, the language list also enumerates the timestamp keys,
and the oldest-entry timestamp exists exactly when there are entries. -/
theorem cache_maps_synchronized (c : TranslationCache) (h : CacheReachable c) :
    c.cache.map Prod.fst = c.timestamps.map Prod.fst ∧
    (c.cache.map Prod.fst).Nodup ∧
    (TranslationCache.getStats c).entries = (TranslationCache.getStats c).languages.length ∧
    (TranslationCache.getStats c).languages = c.timestamps.map Prod.fst ∧
    ((TranslationCache.getStats c).oldest_entry = none ↔
      (TranslationCache.getStats c).entries = 0) := by
  obtain ⟨heq, hnd⟩ := cacheReachable_keysAligned c h
  have hlen : c.cache.length = c.timestamps.length := by
    have hh := congrArg List.length heq
    simpa using hh
  refine ⟨heq, hnd, by simp [TranslationCache.getStats], heq, ?_⟩
  cases hts : c.timestamps with
  | nil =>
    simp [TranslationCache.getStats, hts, hlen.trans (by rw [hts])]
  | cons p rest =>
    have : c.cache.length = rest.length + 1 := by rw [hlen, hts]; simp
    simp [TranslationCache.getStats, hts, this]

theorem cache_maps_synchronized_witness :
    cacheW10.cache.map Prod.fst = cacheW10.timestamps.map Prod.fst ∧
    (cacheW10.cache.map Prod.fst).Nodup ∧
    (TranslationCache.getStats cacheW10).entries =
      (TranslationCache.getStats cacheW10).languages.length ∧
    (TranslationCache.getStats cacheW10).languages = cacheW10.timestamps.map Prod.fst ∧
    ((TranslationCache.getStats cacheW10).oldest_entry = none ↔
      (TranslationCache.getStats cacheW10).entries = 0) :=
  cache_maps_synchronized cacheW10
    (CacheReachable.step_set (TranslationCache.mkEmpty 5) 3 "en" treeC1 (CacheReachable.init 5))

theorem cacheGet_miss (c : TranslationCache) (now : Nat) (key : String)
    (h : pyLookup c.cache key = none) :
    TranslationCache.get c now key = (c, .ok none) := by
  unfold TranslationCache.get
  rw [h]

theorem cacheGet_hit (c : TranslationCache) (now : Nat) (key : String) (tree : Tree) (t : Nat)
    (hc : pyLookup c.cache key = some tree) (ht : pyLookup c.timestamps key = some t)
    (hfresh : ¬ c.ttl < now - t) :
    TranslationCache.get c now key = (c, .ok (some tree)) := by
  unfold TranslationCache.get
  simp only [hc, ht]
  rw [if_neg hfresh]

theorem loadMessages_miss (fs : FileSys) (now : Nat) (fallbacks : List String)
    (st : HandlerState) (lang : String)
    (hmiss : pyLookup st.cache.cache lang = none) :
    loadMessages fs now fallbacks st lang false =
      (match loadLoop fs now lang false (lang :: fallbacks) st with
       | (st2, some t) => (st2, .ok t)
       | (st2, none) =>
         ({ st2 with cache := TranslationCache.set st2.cache now lang [] }, .ok [])) := by
  unfold loadMessages
  rw [cacheGet_miss st.cache now lang hmiss]
  rfl

theorem loadMessages_hit (fs : FileSys) (now : Nat) (fallbacks : List String)
    (st : HandlerState) (lang : String) (tree : Tree) (t : Nat)
    (hc : pyLookup st.cache.cache lang = some tree)
    (ht : pyLookup st.cache.timestamps lang = some t)
    (hfresh : ¬ st.cache.ttl < now - t) :
    loadMessages fs now fallbacks st lang false = (st, .ok tree) := by
  unfold loadMessages
  rw [cacheGet_hit st.cache now lang tree t hc ht hfresh]
  rfl

theorem loadMessages_forced (fs : FileSys) (now : Nat) (fallbacks : List String)
    (st : HandlerState) (lang : String) :
    loadMessages fs now fallbacks st lang true =
      (match loadLoop fs now lang true (lang :: fallbacks) st with
       | (st2, some t) => (st2, .ok t)
       | (st2, none) =>
         ({ st2 with cache := TranslationCache.set st2.cache now lang [] }, .ok [])) := rfl

theorem tryCandidate_no_file (fs : FileSys) (now : Nat) (lang code : String)
    (force : Bool) (st : HandlerState) (h : fs code = none) :
    tryCandidate fs now lang code force st = (st, none) := by
  unfold tryCandidate
  rw [h]

theorem tryCandidate_no_cached (fs : FileSys) (now : Nat) (lang code : String)
    (force : Bool) (st : HandlerState) (file : SourceFile)
    (hf : fs code = some file) (hmiss : pyLookup st.cache.cache code = none) :
    tryCandidate fs now lang code force st = readAndStore file now lang code st := by
  unfold tryCandidate
  simp only [hf]
  by_cases hcond : pyLookup st.fileWatchers code = some file.mtime ∧ force = false
  · rw [if_pos hcond, cacheGet_miss st.cache now code hmiss]
  · rw [if_neg hcond]

theorem readAndStore_parse_fail (file : SourceFile) (now : Nat) (lang code : String)
    (st : HandlerState) (h : file.parsed = none) :
    readAndStore file now lang code st = (st, none) := by
  unfold readAndStore
  rw [h]

theorem readAndStore_not_map (file : SourceFile) (now : Nat) (lang code : String)
    (st : HandlerState) (v : YVal) (h : file.parsed = some v)
    (hty : v.pyFalsy = false) (hnm : ∀ m, v ≠ YVal.map m) :
    readAndStore file now lang code st = (st, none) := by
  cases v with
  | map m => exact absurd rfl (hnm m)
  | str s => simp only [readAndStore, h]; simp [YVal.pyFalsy] at hty; simp [YVal.pyFalsy, hty]
  | null => simp [YVal.pyFalsy] at hty
  | bool b => simp only [readAndStore, h]; simp [YVal.pyFalsy] at hty; simp [YVal.pyFalsy, hty]
  | int n => simp only [readAndStore, h]; simp [YVal.pyFalsy] at hty; simp [YVal.pyFalsy, hty]
  | list xs => simp only [readAndStore, h]; simp [YVal.pyFalsy] at hty; simp [YVal.pyFalsy, hty]

theorem readAndStore_success (file : SourceFile) (now : Nat) (lang code : String)
    (st : HandlerState) (m : Tree) (h : file.parsed = some (YVal.map m)) :
    readAndStore file now lang code st =
      ({ cache := TranslationCache.set st.cache now lang m,
         fileWatchers := pyDictSet st.fileWatchers code file.mtime }, some m) := by
  simp only [readAndStore, h]
  cases hm : (YVal.map m).pyFalsy with
  | false => rfl
  | true =>
    have hme : m = [] := by
      cases m with
      | nil => rfl
      | cons p rest => simp [YVal.pyFalsy] at hm
    subst hme
    rfl

theorem tryCandidate_unusable (fs : FileSys) (now : Nat) (lang code : String)
    (force : Bool) (st : HandlerState)
    (hmiss : pyLookup st.cache.cache code = none)
    (h : candidateUnusable fs code) :
    tryCandidate fs now lang code force st = (st, none) := by
  rcases h with h | ⟨f, hf, hrej⟩
  · exact tryCandidate_no_file fs now lang code force st h
  · rw [tryCandidate_no_cached fs now lang code force st f hf hmiss]
    rcases hrej with hp | ⟨v, hv, hty, hnm⟩
    · exact readAndStore_parse_fail f now lang code st hp
    · exact readAndStore_not_map f now lang code st v hv hty hnm

theorem loadLoop_all_absent (fs : FileSys) (now : Nat) (langCode : String)
    (forceReload : Bool) (codes : List String) (st : HandlerState)
    (h : ∀ code ∈ codes, fs code = none) :
    loadLoop fs now langCode forceReload codes st = (st, none) := by
  induction codes with
  | nil => rfl
  | cons c rest ih =>
    have hc : fs c = none := h c (by simp)
    have hrest : ∀ code ∈ rest, fs code = none := fun code hm => h code (by simp [hm])
    have ht : tryCandidate fs now langCode c forceReload st = (st, none) :=
      tryCandidate_no_file fs now langCode c forceReload st hc
    simp only [loadLoop, ht]
    exact ih hrest

theorem getAsyncFromTree_empty (path : List String) (default : String)
    (ph : List (String × String)) : getAsyncFromTree [] path default ph = default := by
  cases path with
  | nil => rfl
  | cons k rest => rfl

theorem getFromTree_empty (path : List String) (default : String)
    (ph : List (String × String)) : getFromTree [] path default ph = default := by
  cases path with
  | nil => rfl
  | cons k rest => rfl

/-- C4: when neither the requested language nor any fallback has a source
file, `load_messages` stores an empty tree under the requested code and
returns it; from then on, for any clock value within the TTL window and for
ANY file-system contents (no source-existence checks are performed), a
repeated load returns the same empty tree through the cache-hit path, and
both `get` and `get_async` return the caller-supplied default. -/
theorem exhaustion_idempotence (fs : FileSys) (now : Nat) (fallbacks : List String)
    (st : HandlerState) (lang : String)
    (habsent : ∀ code ∈ lang :: fallbacks, fs code = none)
    (hmiss : pyLookup st.cache.cache lang = none) :
    loadMessages fs now fallbacks st lang false =
      ({ st with cache := TranslationCache.set st.cache now lang [] }, .ok []) ∧
    pyLookup (TranslationCache.set st.cache now lang []).cache lang = some [] ∧
    pyLookup (TranslationCache.set st.cache now lang []).timestamps lang = some now ∧
    (∀ (fs2 : FileSys) (now2 : Nat) (fallbacks2 : List String),
      now2 - now ≤ st.cache.ttl →
      loadMessages fs2 now2 fallbacks2
          { st with cache := TranslationCache.set st.cache now lang [] } lang false =
        ({ st with cache := TranslationCache.set st.cache now lang [] }, .ok []) ∧
      (∀ (path : List String) (default : String) (ph : List (String × String)),
        getAsync fs2 now2 fallbacks2
            { st with cache := TranslationCache.set st.cache now lang [] } lang path default ph =
          ({ st with cache := TranslationCache.set st.cache now lang [] }, .ok default) ∧
        handlerGet fs2 now2 fallbacks2
            { st with cache := TranslationCache.set st.cache now lang [] } lang path default ph =
          ({ st with cache := TranslationCache.set st.cache now lang [] }, .ok default))) := by
  have h1 : loadMessages fs now fallbacks st lang false =
      ({ st with cache := TranslationCache.set st.cache now lang [] }, .ok []) := by
    rw [loadMessages_miss fs now fallbacks st lang hmiss,
        loadLoop_all_absent fs now lang false (lang :: fallbacks) st habsent]
  have hcl : pyLookup (TranslationCache.set st.cache now lang []).cache lang = some [] :=
    pyLookup_pyDictSet_self st.cache.cache lang []
  have hts : pyLookup (TranslationCache.set st.cache now lang []).timestamps lang = some now :=
    pyLookup_pyDictSet_self st.cache.timestamps lang now
  refine ⟨h1, hcl, hts, ?_⟩
  intro fs2 now2 fallbacks2 hwin
  have h2 : loadMessages fs2 now2 fallbacks2
      { st with cache := TranslationCache.set st.cache now lang [] } lang false =
      ({ st with cache := TranslationCache.set st.cache now lang [] }, .ok []) :=
    loadMessages_hit fs2 now2 fallbacks2 _ lang [] now hcl hts (by
      show ¬ (TranslationCache.set st.cache now lang []).ttl < now2 - now
      have : (TranslationCache.set st.cache now lang []).ttl = st.cache.ttl := rfl
      omega)
  refine ⟨h2, ?_⟩
  intro path default ph
  constructor
  · unfold getAsync
    simp only [h2]
    rw [getAsyncFromTree_empty]
  · unfold handlerGet
    simp only [h2]
    rw [getFromTree_empty]

theorem exhaustion_idempotence_witness :
    loadMessages fsNone 0 ["en", "de"] stEmpty "fr" false =
      ({ stEmpty with cache := TranslationCache.set stEmpty.cache 0 "fr" [] }, .ok []) ∧
    getAsync fsAll 3 ["en", "de"]
        { stEmpty with cache := TranslationCache.set stEmpty.cache 0 "fr" [] } "fr"
        ["a", "b"] "X" [] =
      ({ stEmpty with cache := TranslationCache.set stEmpty.cache 0 "fr" [] }, .ok "X") := by
  have h := exhaustion_idempotence fsNone 0 ["en", "de"] stEmpty "fr"
    (by intro code hc; rfl) rfl
  exact ⟨h.1, ((h.2.2.2 fsAll 3 ["en", "de"] (by decide)).2 ["a", "b"] "X" []).1⟩

/-- C2: for a request on `x` with fallback chain `[a, b]`, in a state with
no cache entries for `x`, `a` or `b`, if the sources of `x` and `a` are
absent or invalid and `b`'s source parses to a mapping `mb`, then
`load_messages` returns `mb`, the new cache entry is stored under the
requested key `x` with the current timestamp, and `b`'s own cache entry is
untouched. -/
theorem loadMessages_fallback_caches_under_requested
    (fs : FileSys) (now : Nat) (st : HandlerState) (x a b : String)
    (fb : SourceFile) (mb : Tree)
    (hmx : pyLookup st.cache.cache x = none)
    (hma : pyLookup st.cache.cache a = none)
    (hmb : pyLookup st.cache.cache b = none)
    (hx : candidateUnusable fs x)
    (ha : candidateUnusable fs a)
    (hb : fs b = some fb)
    (hbm : fb.parsed = some (YVal.map mb))
    (hbx : b ≠ x) :
    loadMessages fs now [a, b] st x false =
      ({ cache := TranslationCache.set st.cache now x mb,
         fileWatchers := pyDictSet st.fileWatchers b fb.mtime }, .ok mb) ∧
    pyLookup (TranslationCache.set st.cache now x mb).cache x = some mb ∧
    pyLookup (TranslationCache.set st.cache now x mb).timestamps x = some now ∧
    pyLookup (TranslationCache.set st.cache now x mb).cache b = pyLookup st.cache.cache b := by
  have hcx := tryCandidate_unusable fs now x x false st hmx hx
  have hca := tryCandidate_unusable fs now x a false st hma ha
  have hcb : tryCandidate fs now x b false st =
      ({ cache := TranslationCache.set st.cache now x mb,
         fileWatchers := pyDictSet st.fileWatchers b fb.mtime }, some mb) := by
    rw [tryCandidate_no_cached fs now x b false st fb hb hmb,
        readAndStore_success fb now x b st mb hbm]
  have hloop : loadLoop fs now x false [x, a, b] st =
      ({ cache := TranslationCache.set st.cache now x mb,
         fileWatchers := pyDictSet st.fileWatchers b fb.mtime }, some mb) := by
    simp only [loadLoop, hcx, hca, hcb]
  refine ⟨?_, pyLookup_pyDictSet_self st.cache.cache x mb,
          pyLookup_pyDictSet_self st.cache.timestamps x now,
          pyLookup_pyDictSet_ne st.cache.cache x mb b hbx⟩
  rw [loadMessages_miss fs now [a, b] st x hmx, hloop]

theorem loadMessages_fallback_caches_under_requested_witness :
    loadMessages fsC2 2 ["en", "de"] stEmpty "es" false =
      ({ cache := TranslationCache.set stEmpty.cache 2 "es" treeB,
         fileWatchers := pyDictSet stEmpty.fileWatchers "de" 7 }, .ok treeB) ∧
    pyLookup (TranslationCache.set stEmpty.cache 2 "es" treeB).cache "es" = some treeB ∧
    pyLookup (TranslationCache.set stEmpty.cache 2 "es" treeB).cache "de" =
      pyLookup stEmpty.cache.cache "de" := by
  have h := loadMessages_fallback_caches_under_requested fsC2 2 stEmpty "es" "en" "de"
    { mtime := 7, parsed := some (YVal.map treeB) } treeB rfl rfl rfl
    (Or.inr ⟨{ mtime := 1, parsed := some (YVal.str "oops") }, rfl,
      Or.inr ⟨YVal.str "oops", rfl, rfl, fun m hm => YVal.noConfusion hm⟩⟩)
    (Or.inl rfl) rfl rfl (by decide)
  exact ⟨h.1, h.2.1, h.2.2.2⟩

theorem cacheGet_keyerror (ca : TranslationCache) (now : Nat) (key : String)
    (tree : Tree) (hc : pyLookup ca.cache key = some tree)
    (ht : pyLookup ca.timestamps key = none) :
    TranslationCache.get ca now key = (ca, .error "KeyError") := by
  unfold TranslationCache.get
  simp only [hc, ht]

theorem cacheGet_expired (ca : TranslationCache) (now : Nat) (key : String)
    (tree : Tree) (t : Nat) (hc : pyLookup ca.cache key = some tree)
    (ht : pyLookup ca.timestamps key = some t) (hexp : ca.ttl < now - t) :
    TranslationCache.get ca now key =
      ({ ca with cache := pyDictPop ca.cache key,
                 timestamps := pyDictPop ca.timestamps key }, .ok none) := by
  unfold TranslationCache.get
  simp only [hc, ht]
  rw [if_pos hexp]

theorem cacheGet_fst_lookup_none (ca : TranslationCache) (now : Nat) (key c : String)
    (h : pyLookup ca.cache c = none) :
    pyLookup (TranslationCache.get ca now key).1.cache c = none := by
  cases h1 : pyLookup ca.cache key with
  | none =>
    rw [cacheGet_miss ca now key h1]
    exact h
  | some tree =>
    cases h2 : pyLookup ca.timestamps key with
    | none =>
      rw [cacheGet_keyerror ca now key tree h1 h2]
      exact h
    | some t =>
      by_cases hexp : ca.ttl < now - t
      · rw [cacheGet_expired ca now key tree t h1 h2 hexp]
        exact pyLookup_pyDictPop_none ca.cache key c h
      · rw [cacheGet_hit ca now key tree t h1 h2 hexp]
        exact h

theorem readAndStore_falsy (file : SourceFile) (now : Nat) (lang code : String)
    (st : HandlerState) (v : YVal) (hp : file.parsed = some v)
    (hf : v.pyFalsy = true) :
    readAndStore file now lang code st =
      ({ cache := TranslationCache.set st.cache now lang [],
         fileWatchers := pyDictSet st.fileWatchers code file.mtime }, some []) := by
  simp only [readAndStore, hp, hf, if_true]

theorem readAndStore_fst_lookup_none (file : SourceFile) (now : Nat)
    (lang code : String) (st : HandlerState) (c : String) (hlang : lang ≠ c)
    (habs : pyLookup st.cache.cache c = none) :
    pyLookup (readAndStore file now lang code st).1.cache.cache c = none := by
  cases hp : file.parsed with
  | none =>
    rw [readAndStore_parse_fail file now lang code st hp]
    exact habs
  | some v =>
    by_cases hf : v.pyFalsy = true
    · rw [readAndStore_falsy file now lang code st v hp hf]
      show pyLookup (pyDictSet st.cache.cache lang []) c = none
      rw [pyLookup_pyDictSet_ne st.cache.cache lang [] c (fun hh => hlang hh.symm)]
      exact habs
    · have hty : v.pyFalsy = false := by simpa using hf
      cases v with
      | map m =>
        rw [readAndStore_success file now lang code st m hp]
        show pyLookup (pyDictSet st.cache.cache lang m) c = none
        rw [pyLookup_pyDictSet_ne st.cache.cache lang m c (fun hh => hlang hh.symm)]
        exact habs
      | str sv =>
        rw [readAndStore_not_map file now lang code st (YVal.str sv) hp hty
          (fun m hm => YVal.noConfusion hm)]
        exact habs
      | null => simp [YVal.pyFalsy] at hty
      | bool bv =>
        rw [readAndStore_not_map file now lang code st (YVal.bool bv) hp hty
          (fun m hm => YVal.noConfusion hm)]
        exact habs
      | int nv =>
        rw [readAndStore_not_map file now lang code st (YVal.int nv) hp hty
          (fun m hm => YVal.noConfusion hm)]
        exact habs
      | list xsv =>
        rw [readAndStore_not_map file now lang code st (YVal.list xsv) hp hty
          (fun m hm => YVal.noConfusion hm)]
        exact habs

theorem tryCandidate_preserves_absent (fs : FileSys) (now : Nat) (lang code : String)
    (force : Bool) (st : HandlerState) (c : String)
    (hlang : lang ≠ c) (habs : pyLookup st.cache.cache c = none) :
    pyLookup (tryCandidate fs now lang code force st).1.cache.cache c = none := by
  cases hf : fs code with
  | none =>
    rw [tryCandidate_no_file fs now lang code force st hf]
    exact habs
  | some file =>
    have hrs : ∀ st' : HandlerState, pyLookup st'.cache.cache c = none →
        pyLookup (readAndStore file now lang code st').1.cache.cache c = none :=
      fun st' h' => readAndStore_fst_lookup_none file now lang code st' c hlang h'
    simp only [tryCandidate, hf]
    by_cases hcond : pyLookup st.fileWatchers code = some file.mtime ∧ force = false
    · rw [if_pos hcond]
      have hget := cacheGet_fst_lookup_none st.cache now code c habs
      cases hg : TranslationCache.get st.cache now code with
      | mk cache1 r =>
        rw [hg] at hget
        have hget2 : pyLookup cache1.cache c = none := hget
        cases r with
        | error e => exact hget2
        | ok cachedOpt =>
          cases cachedOpt with
          | none => exact hrs { cache := cache1, fileWatchers := st.fileWatchers } hget2
          | some t =>
            show pyLookup
              ((if t.isEmpty = true then
                  readAndStore file now lang code
                    { cache := cache1, fileWatchers := st.fileWatchers }
                else ({ cache := cache1, fileWatchers := st.fileWatchers }, some t)) :
                HandlerState × Option Tree).1.cache.cache c = none
            cases ht : t.isEmpty with
            | true => exact hrs { cache := cache1, fileWatchers := st.fileWatchers } hget2
            | false => exact hget2
    · rw [if_neg hcond]
      exact hrs st habs

theorem loadLoop_preserves_absent (fs : FileSys) (now : Nat) (lang : String)
    (force : Bool) (codes : List String) (st : HandlerState) (c : String)
    (hlang : lang ≠ c) (habs : pyLookup st.cache.cache c = none) :
    pyLookup (loadLoop fs now lang force codes st).1.cache.cache c = none := by
  induction codes generalizing st with
  | nil => exact habs
  | cons code rest ih =>
    have hpres := tryCandidate_preserves_absent fs now lang code force st c hlang habs
    simp only [loadLoop]
    cases htc : tryCandidate fs now lang code force st with
    | mk st1 r =>
      rw [htc] at hpres
      cases r with
      | some t => exact hpres
      | none => exact ih st1 hpres

theorem loadTail_preserves_absent (fs : FileSys) (now : Nat) (fallbacks : List String)
    (lang : String) (force : Bool) (c : String) (st0 : HandlerState)
    (hlang : lang ≠ c) (habs : pyLookup st0.cache.cache c = none) :
    pyLookup ((match loadLoop fs now lang force (lang :: fallbacks) st0 with
       | (st2, some t) => (st2, Except.ok t)
       | (st2, none) =>
         ({ st2 with cache := TranslationCache.set st2.cache now lang [] },
          Except.ok ([] : Tree))) : HandlerState × Except String Tree).1.cache.cache c =
      none := by
  have hloop := loadLoop_preserves_absent fs now lang force (lang :: fallbacks) st0 c hlang habs
  cases hl : loadLoop fs now lang force (lang :: fallbacks) st0 with
  | mk st2 r =>
    rw [hl] at hloop
    cases r with
    | some t => exact hloop
    | none =>
      show pyLookup (pyDictSet st2.cache.cache lang []) c = none
      rw [pyLookup_pyDictSet_ne st2.cache.cache lang [] c (fun hh => hlang hh.symm)]
      exact hloop

theorem loadMessages_keyerror (fs : FileSys) (now : Nat) (fallbacks : List String)
    (st : HandlerState) (lang : String) (tree : Tree)
    (hc : pyLookup st.cache.cache lang = some tree)
    (ht : pyLookup st.cache.timestamps lang = none) :
    loadMessages fs now fallbacks st lang false = (st, .error "KeyError") := by
  unfold loadMessages
  rw [cacheGet_keyerror st.cache now lang tree hc ht]
  rfl

theorem loadMessages_expired (fs : FileSys) (now : Nat) (fallbacks : List String)
    (st : HandlerState) (lang : String) (tree : Tree) (t : Nat)
    (hc : pyLookup st.cache.cache lang = some tree)
    (ht : pyLookup st.cache.timestamps lang = some t)
    (hexp : st.cache.ttl < now - t) :
    loadMessages fs now fallbacks st lang false =
      (match loadLoop fs now lang false (lang :: fallbacks)
          { st with cache := { st.cache with cache := pyDictPop st.cache.cache lang,
                                             timestamps := pyDictPop st.cache.timestamps lang } } with
       | (st2, some t) => (st2, .ok t)
       | (st2, none) =>
         ({ st2 with cache := TranslationCache.set st2.cache now lang [] }, .ok [])) := by
  unfold loadMessages
  rw [cacheGet_expired st.cache now lang tree t hc ht hexp]
  rfl

theorem loadMessages_preserves_absent (fs : FileSys) (now : Nat)
    (fallbacks : List String) (st : HandlerState) (lang : String) (force : Bool)
    (c : String) (hlang : lang ≠ c) (habs : pyLookup st.cache.cache c = none) :
    pyLookup (loadMessages fs now fallbacks st lang force).1.cache.cache c = none := by
  cases force with
  | true =>
    rw [loadMessages_forced fs now fallbacks st lang]
    exact loadTail_preserves_absent fs now fallbacks lang true c st hlang habs
  | false =>
    cases hc : pyLookup st.cache.cache lang with
    | none =>
      rw [loadMessages_miss fs now fallbacks st lang hc]
      exact loadTail_preserves_absent fs now fallbacks lang false c st hlang habs
    | some tree =>
      cases ht : pyLookup st.cache.timestamps lang with
      | none =>
        rw [loadMessages_keyerror fs now fallbacks st lang tree hc ht]
        exact habs
      | some t =>
        by_cases hexp : st.cache.ttl < now - t
        · rw [loadMessages_expired fs now fallbacks st lang tree t hc ht hexp]
          refine loadTail_preserves_absent fs now fallbacks lang false c _ hlang ?_
          exact pyLookup_pyDictPop_none st.cache.cache lang c habs
        · rw [loadMessages_hit fs now fallbacks st lang tree t hc ht hexp]
          exact habs

theorem clearCache_preserves_absent (st : HandlerState) (key : Option String)
    (c : String) (habs : pyLookup st.cache.cache c = none) :
    pyLookup (clearCache st key).cache.cache c = none := by
  unfold clearCache TranslationCache.clear
  by_cases hk : pyTruthyStrOpt key = true
  · simp only [if_pos hk]
    exact pyLookup_pyDictPop_none st.cache.cache (key.getD "") c habs
  · simp only [if_neg hk]
    rfl

theorem tryCandidate_rereads (fs : FileSys) (now : Nat) (lang : String)
    (force : Bool) (st : HandlerState) (c : String)
    (habs : pyLookup st.cache.cache c = none) :
    tryCandidate fs now lang c force st =
      (match fs c with
       | none => (st, none)
       | some file => readAndStore file now lang c st) := by
  cases hf : fs c with
  | none => rw [tryCandidate_no_file fs now lang c force st hf]
  | some file => rw [tryCandidate_no_cached fs now lang c force st file hf habs]

/-- C3: while a language `c` is only ever used as a fallback candidate and
never itself requested, no reachable handler state holds a cache entry under
`c`; consequently the modification-time reuse shortcut of the fallback loop
can never return a cached tree for candidate `c` — processing that candidate
is always exactly the read-and-parse step (`readAndStore`). -/
theorem fallback_only_shortcut_never_fires (c : String) (st : HandlerState)
    (h : ReachAvoiding c st) :
    pyLookup st.cache.cache c = none ∧
    (∀ (fs : FileSys) (now : Nat) (lang : String) (force : Bool),
      tryCandidate fs now lang c force st =
        (match fs c with
         | none => (st, none)
         | some file => readAndStore file now lang c st)) := by
  have habs : pyLookup st.cache.cache c = none := by
    induction h with
    | init ttl => rfl
    | load st0 fs now fallbacks lang force hlang _ ih =>
      exact loadMessages_preserves_absent fs now fallbacks st0 lang force c hlang ih
    | clearStep st0 key _ ih => exact clearCache_preserves_absent st0 key c ih
    | newCache st0 ttl _ ih => rfl
    | setTtl st0 ttl _ ih => exact ih
  exact ⟨habs, fun fs now lang force => tryCandidate_rereads fs now lang force st c habs⟩

theorem fallback_only_shortcut_never_fires_witness :
    pyLookup (loadMessages fsC2 2 ["en", "de"] stEmpty "es" false).1.cache.cache "de" =
      none ∧
    tryCandidate fsNone 9 "es" "de" false
        (loadMessages fsC2 2 ["en", "de"] stEmpty "es" false).1 =
      ((loadMessages fsC2 2 ["en", "de"] stEmpty "es" false).1, none) := by
  have hr : ReachAvoiding "de" (loadMessages fsC2 2 ["en", "de"] stEmpty "es" false).1 :=
    ReachAvoiding.load stEmpty fsC2 2 ["en", "de"] "es" false (by decide)
      (ReachAvoiding.init 5)
  have h := fallback_only_shortcut_never_fires "de"
    (loadMessages fsC2 2 ["en", "de"] stEmpty "es" false).1 hr
  refine ⟨h.1, ?_⟩
  rw [h.2 fsNone 9 "es" false]
  rfl

/-- C5: for every loaded message tree, key path, default and placeholder
map, both `get` and `get_async` return the caller-supplied default whenever
key navigation fails (an absent segment, a stored `None`, or a non-mapping
intermediate value) or succeeds with a value that is not a string. -/
theorem get_default_on_miss (tree : Tree) (path : List String) (default : String)
    (ph : List (String × String)) :
    (navigatePath (.map tree) path = none →
      getFromTree tree path default ph = default ∧
      getAsyncFromTree tree path default ph = default) ∧
    (∀ v, navigatePath (.map tree) path = some v → (∀ s, v ≠ YVal.str s) →
      getFromTree tree path default ph = default ∧
      getAsyncFromTree tree path default ph = default) := by
  constructor
  · intro h
    constructor
    · simp only [getFromTree, h]
    · simp only [getAsyncFromTree, h]
  · intro v hv hns
    cases v with
    | str s => exact absurd rfl (hns s)
    | null => exact ⟨by simp only [getFromTree, hv], by simp only [getAsyncFromTree, hv]⟩
    | bool b => exact ⟨by simp only [getFromTree, hv], by simp only [getAsyncFromTree, hv]⟩
    | int n => exact ⟨by simp only [getFromTree, hv], by simp only [getAsyncFromTree, hv]⟩
    | list xs => exact ⟨by simp only [getFromTree, hv], by simp only [getAsyncFromTree, hv]⟩
    | map m => exact ⟨by simp only [getFromTree, hv], by simp only [getAsyncFromTree, hv]⟩

theorem get_default_on_miss_witness :
    (getFromTree treeC5 ["a", "b", "c"] "X" [] = "X" ∧
     getAsyncFromTree treeC5 ["a", "b", "c"] "X" [] = "X") ∧
    (getFromTree treeC5b ["a", "b", "c"] "X" [] = "X" ∧
     getAsyncFromTree treeC5b ["a", "b", "c"] "X" [] = "X") ∧
    (getFromTree treeC5b ["a", "z"] "X" [] = "X" ∧
     getAsyncFromTree treeC5b ["a", "z"] "X" [] = "X") :=
  ⟨(get_default_on_miss treeC5 ["a", "b", "c"] "X" []).2 (YVal.int 42) rfl
     (fun s h => YVal.noConfusion h),
   (get_default_on_miss treeC5b ["a", "b", "c"] "X" []).1 rfl,
   (get_default_on_miss treeC5b ["a", "z"] "X" []).1 rfl⟩

theorem pyFmtChars_ok_of_refs (ph : List (String × String)) (cs : List Char) :
    ∀ names : List String, fmtRefs cs = some names →
      (∀ nm ∈ names, (pyLookup ph nm).isSome) →
      ∃ out, pyFmtChars ph cs = .ok out := by
  induction cs using fmtRefs.induct with
  | case1 =>
    intro names _ _
    exact ⟨[], by simp [pyFmtChars]⟩
  | case2 =>
    intro names href _
    simp [fmtRefs] at href
  | case3 rest ih =>
    intro names href hsup
    simp [fmtRefs] at href
    obtain ⟨out, hout⟩ := ih names href hsup
    exact ⟨braceL :: out, by simp [pyFmtChars, hout, Except.map]⟩
  | case4 c rest hc hfs =>
    intro names href _
    simp [fmtRefs, hc] at href
    split at href
    · simp at href
    · rename_i name r heq
      rw [hfs] at heq
      simp at heq
  | case5 c rest hc name r hfs ih =>
    intro names href hsup
    simp [fmtRefs, hc] at href
    split at href
    · rename_i heq
      rw [hfs] at heq
      simp at heq
    · rename_i name2 r2 heq
      rw [hfs] at heq
      simp only [Option.some.injEq, Prod.mk.injEq] at heq
      obtain ⟨h1, h2⟩ := heq
      subst h1
      subst h2
      cases hrr : fmtRefs r with
      | none => rw [hrr] at href; simp at href
      | some names' =>
        rw [hrr] at href
        simp at href
        have hnames : names = String.mk name :: names' := href.symm
        subst hnames
        have hv : (pyLookup ph (String.mk name)).isSome :=
          hsup (String.mk name) (by simp)
        obtain ⟨v, hv'⟩ := Option.isSome_iff_exists.mp hv
        obtain ⟨out, hout⟩ := ih names' hrr (fun nm hm => hsup nm (by simp [hm]))
        refine ⟨v.data ++ out, ?_⟩
        simp [pyFmtChars, hc]
        split
        · rename_i heq2
          rw [hfs] at heq2
          simp at heq2
        · rename_i heq2
          rw [hfs] at heq2
          simp only [Option.some.injEq, Prod.mk.injEq] at heq2
          obtain ⟨h3, h4⟩ := heq2
          subst h3
          subst h4
          simp [hv', hout, Except.map]
  | case6 hbr =>
    intro names href _
    simp [fmtRefs, hbr] at href
  | case7 rest hbr ih =>
    intro names href hsup
    simp [fmtRefs, hbr] at href
    obtain ⟨out, hout⟩ := ih names (by simpa using href) hsup
    exact ⟨braceR :: out, by simp [pyFmtChars, hbr, hout, Except.map]⟩
  | case8 c rest hc hbr =>
    intro names href _
    simp [fmtRefs, hc, hbr] at href
  | case9 c rest hcl hcr ih =>
    intro names href hsup
    rw [fmtRefs.eq_def] at href
    simp [hcl, hcr] at href
    obtain ⟨out, hout⟩ := ih names (by simpa using href) hsup
    refine ⟨c :: out, ?_⟩
    rw [pyFmtChars.eq_def]
    simp [hcl, hcr, hout, Except.map]

/-- C6: when key navigation reaches a string template, a successful
`str.format` yields the formatted string from both `get` and `get_async`,
while any formatting failure — including a missing placeholder name —
yields the literal unformatted template, not the default; supplying every
referenced placeholder name guarantees formatting succeeds; and on the
concrete template the round trip behaves as the specification describes. -/
theorem get_placeholder_substitution :
    (∀ (tree : Tree) (path : List String) (default : String)
       (ph : List (String × String)) (s out : String),
      navigatePath (.map tree) path = some (.str s) →
      pyFormat s ph = .ok out →
      getFromTree tree path default ph = out ∧
      getAsyncFromTree tree path default ph = out) ∧
    (∀ (tree : Tree) (path : List String) (default : String)
       (ph : List (String × String)) (s : String) (e : FmtError),
      navigatePath (.map tree) path = some (.str s) →
      pyFormat s ph = .error e →
      getFromTree tree path default ph = s ∧
      getAsyncFromTree tree path default ph = s) ∧
    (∀ (ph : List (String × String)) (cs : List Char) (names : List String),
      fmtRefs cs = some names →
      (∀ nm ∈ names, (pyLookup ph nm).isSome) →
      ∃ out, pyFmtChars ph cs = .ok out) ∧
    pyFormat "Hello, \x7bname\x7d!" [("name", "Alice")] = .ok "Hello, Alice!" ∧
    pyFormat "Hello, \x7bname\x7d!" [] = .error .keyErr := by
  refine ⟨?_, ?_, fun ph cs names href hsup => pyFmtChars_ok_of_refs ph cs names href hsup,
    by simp +decide [pyFormat, pyFmtChars, fieldSplit, pyLookup, Except.map],
    by simp +decide [pyFormat, pyFmtChars, fieldSplit, pyLookup, Except.map]⟩
  · intro tree path default ph s out hnav hfmt
    exact ⟨by simp only [getFromTree, hnav, hfmt],
           by simp only [getAsyncFromTree, hnav, hfmt]⟩
  · intro tree path default ph s e hnav hfmt
    refine ⟨?_, ?_⟩
    · simp only [getFromTree, hnav, hfmt]
      cases e <;> rfl
    · simp only [getAsyncFromTree, hnav, hfmt]

theorem get_placeholder_substitution_witness :
    getFromTree treeC6 ["greet"] "D" [("name", "Alice")] = "Hello, Alice!" ∧
    getFromTree treeC6 ["greet"] "D" [] = "Hello, \x7bname\x7d!" ∧
    getAsyncFromTree treeC6 ["greet"] "D" [] = "Hello, \x7bname\x7d!" := by
  have h := get_placeholder_substitution
  exact ⟨(h.1 treeC6 ["greet"] "D" [("name", "Alice")] "Hello, \x7bname\x7d!"
            "Hello, Alice!" rfl h.2.2.2.1).1,
         (h.2.1 treeC6 ["greet"] "D" [] "Hello, \x7bname\x7d!" .keyErr rfl h.2.2.2.2).1,
         (h.2.1 treeC6 ["greet"] "D" [] "Hello, \x7bname\x7d!" .keyErr rfl h.2.2.2.2).2⟩

theorem getAllLoop_append (fs : FileSys) (now : Nat) (fallbacks : List String)
    (path : List String) (l1 l2 : List String) :
    ∀ (st : HandlerState) (r : List (String × String)),
      getAllLoop fs now fallbacks path (l1 ++ l2) st r =
        getAllLoop fs now fallbacks path l2
          (getAllLoop fs now fallbacks path l1 st r).1
          (getAllLoop fs now fallbacks path l1 st r).2 := by
  induction l1 with
  | nil => intro st r; rfl
  | cons l0 rest ih =>
    intro st r
    simp only [List.cons_append, getAllLoop]
    cases hg : getAsync fs now fallbacks st l0 path "" [] with
    | mk st1 res =>
      cases res with
      | error e => exact ih st1 r
      | ok t => exact ih st1 _

theorem getAllLoop_lookup_not_mem (fs : FileSys) (now : Nat)
    (fallbacks : List String) (path : List String) (langs : List String) :
    ∀ (st : HandlerState) (r : List (String × String)) (lang : String),
      lang ∉ langs →
      pyLookup (getAllLoop fs now fallbacks path langs st r).2 lang = pyLookup r lang := by
  induction langs with
  | nil => intro st r lang _; rfl
  | cons l0 rest ih =>
    intro st r lang hmem
    have hne : lang ≠ l0 := fun h => hmem (by simp [h])
    have hrest : lang ∉ rest := fun h => hmem (by simp [h])
    simp only [getAllLoop]
    cases hg : getAsync fs now fallbacks st l0 path "" [] with
    | mk st1 res =>
      cases res with
      | error e => exact ih st1 r lang hrest
      | ok t =>
        by_cases ht : t = ""
        · simp only [if_pos ht]
          exact ih st1 r lang hrest
        · simp only [if_neg ht]
          rw [ih st1 _ lang hrest, pyLookup_pyDictSet_ne r l0 t lang hne]

theorem getAllLoop_lookup_some (fs : FileSys) (now : Nat)
    (fallbacks : List String) (path : List String) (langs : List String) :
    ∀ (st : HandlerState) (r : List (String × String)) (lang s : String),
      pyLookup (getAllLoop fs now fallbacks path langs st r).2 lang = some s →
      pyLookup r lang = some s ∨ (lang ∈ langs ∧ s ≠ "") := by
  induction langs with
  | nil => intro st r lang s h; exact Or.inl h
  | cons l0 rest ih =>
    intro st r lang s
    simp only [getAllLoop]
    cases hg : getAsync fs now fallbacks st l0 path "" [] with
    | mk st1 res =>
      cases res with
      | error e =>
        intro h
        rcases ih st1 r lang s h with h' | ⟨hm, hs⟩
        · exact Or.inl h'
        · exact Or.inr ⟨by simp [hm], hs⟩
      | ok t =>
        by_cases ht : t = ""
        · simp only [if_pos ht]
          intro h
          rcases ih st1 r lang s h with h' | ⟨hm, hs⟩
          · exact Or.inl h'
          · exact Or.inr ⟨by simp [hm], hs⟩
        · simp only [if_neg ht]
          intro h
          rcases ih st1 _ lang s h with h' | ⟨hm, hs⟩
          · by_cases hl : lang = l0
            · subst hl
              rw [pyLookup_pyDictSet_self] at h'
              cases h'
              exact Or.inr ⟨by simp, ht⟩
            · rw [pyLookup_pyDictSet_ne r l0 t lang hl] at h'
              exact Or.inl h'
          · exact Or.inr ⟨by simp [hm], hs⟩

/-- C7: `get_all_translations` is a total function of its inputs (per-language
failures are swallowed rather than propagated), its result binds only
language codes from the queried list and only to non-empty strings, and —
for a duplicate-free language list — a language is bound exactly when its
own independent resolution (from the state left by the preceding languages)
returns a non-empty string, and then to exactly that string. -/
theorem getAllTranslations_collects_nonempty (fs : FileSys) (now : Nat)
    (fallbacks : List String) (path : List String) (languages : List String)
    (st : HandlerState) :
    (∀ lang s,
      pyLookup (getAllTranslations fs now fallbacks path languages st).2 lang = some s →
      lang ∈ languages ∧ s ≠ "") ∧
    (languages.Nodup → ∀ pre lang post, languages = pre ++ lang :: post →
      pyLookup (getAllTranslations fs now fallbacks path languages st).2 lang =
        (match (getAsync fs now fallbacks
            (getAllTranslations fs now fallbacks path pre st).1 lang path "" []).2 with
         | .ok t => if t = "" then none else some t
         | .error _ => none)) := by
  constructor
  · intro lang s h
    rcases getAllLoop_lookup_some fs now fallbacks path languages st [] lang s h with
      h' | ⟨hm, hs⟩
    · simp [pyLookup] at h'
    · exact ⟨hm, hs⟩
  · intro hnd pre lang post hdec
    subst hdec
    obtain ⟨hnd1, hnd2, hdisj⟩ := List.nodup_append.mp hnd
    have hpre : lang ∉ pre := fun hm => hdisj hm (by simp)
    have hpost : lang ∉ post := (List.nodup_cons.mp hnd2).1
    unfold getAllTranslations
    rw [getAllLoop_append fs now fallbacks path pre (lang :: post)]
    have hrp : pyLookup (getAllLoop fs now fallbacks path pre st []).2 lang = none := by
      rw [getAllLoop_lookup_not_mem fs now fallbacks path pre st [] lang hpre]
      rfl
    simp only [getAllLoop]
    cases hg : getAsync fs now fallbacks
        (getAllLoop fs now fallbacks path pre st []).1 lang path "" [] with
    | mk st1 res =>
      cases res with
      | error e =>
        rw [getAllLoop_lookup_not_mem fs now fallbacks path post st1 _ lang hpost]
        exact hrp
      | ok t =>
        by_cases ht : t = ""
        · simp only [if_pos ht]
          rw [getAllLoop_lookup_not_mem fs now fallbacks path post st1 _ lang hpost]
          rw [hrp]
        · simp only [if_neg ht]
          rw [getAllLoop_lookup_not_mem fs now fallbacks path post st1 _ lang hpost]
          rw [pyLookup_pyDictSet_self]

theorem getAllTranslations_collects_nonempty_witness :
    pyLookup (getAllTranslations fsAll 0 [] ["k"] ["en", "fr"] stEmpty).2 "fr" =
      (match (getAsync fsAll 0 []
          (getAllTranslations fsAll 0 [] ["k"] ["en"] stEmpty).1 "fr" ["k"] "" []).2 with
       | .ok t => if t = "" then none else some t
       | .error _ => none) :=
  (getAllTranslations_collects_nonempty fsAll 0 [] ["k"] ["en", "fr"] stEmpty).2
    (by decide) ["en"] "fr" [] rfl

/-- C8: the validator flattens trees into sets of dot-joined key paths —
on the specification's example `getAllKeysF` yields exactly
`{"a.b", "a.c"}`, and comparing it with the target tree reports missing
`{"a.c"}` and no extra keys; in general, when the forced reload yields an
empty tree the validity flag is false with a hard error recorded, and when
both trees load, `missing_keys`/`extra_keys` are exactly the two set
differences of the flattened key sets. -/
theorem validateTranslations_key_diff :
    getAllKeysF treeEN "" = ({"a.b", "a.c"} : Finset String) ∧
    getAllKeysF treeEN "" \ getAllKeysF treeXX "" = ({"a.c"} : Finset String) ∧
    getAllKeysF treeXX "" \ getAllKeysF treeEN "" = (∅ : Finset String) ∧
    (∀ (fs : FileSys) (now : Nat) (fallbacks : List String) (defaultLang : String)
       (st : HandlerState) (lang : String),
      (loadMessages fs now fallbacks st lang true).2 = .ok [] →
      validateTranslations fs now fallbacks defaultLang st lang =
        ((loadMessages fs now fallbacks st lang true).1,
         { valid := false,
           errors := ["No translations found for '" ++ lang ++ "'"],
           warnings := [], missing_keys := ∅, extra_keys := ∅ })) ∧
    (∀ (fs : FileSys) (now : Nat) (fallbacks : List String) (defaultLang : String)
       (st st1 st2 : HandlerState) (lang : String) (T D : Tree),
      loadMessages fs now fallbacks st lang true = (st1, .ok T) →
      T ≠ [] →
      lang ≠ defaultLang →
      loadMessages fs now fallbacks st1 defaultLang false = (st2, .ok D) →
      validateTranslations fs now fallbacks defaultLang st lang =
        (st2,
         { valid := true, errors := [],
           warnings :=
             if getAllKeysF D "" \ getAllKeysF T "" = ∅ then []
             else [toString (getAllKeysF D "" \ getAllKeysF T "").card ++
                     " keys missing compared to " ++ defaultLang],
           missing_keys := getAllKeysF D "" \ getAllKeysF T "",
           extra_keys := getAllKeysF T "" \ getAllKeysF D "" })) := by
  refine ⟨by simp [getAllKeysF, treeEN]; try decide,
          by simp [getAllKeysF, treeEN, treeXX]; try decide,
          by simp [getAllKeysF, treeEN, treeXX]; try decide, ?_, ?_⟩
  · intro fs now fallbacks defaultLang st lang h
    cases hl : loadMessages fs now fallbacks st lang true with
    | mk st1 r =>
      rw [hl] at h
      have h2 : r = .ok [] := h
      subst h2
      simp only [validateTranslations, hl]
      rfl
  · intro fs now fallbacks defaultLang st st1 st2 lang T D h1 hT hlang h2
    have hTe : T.isEmpty = false := by
      cases T with
      | nil => exact absurd rfl hT
      | cons p rest => rfl
    simp only [validateTranslations, h1, hTe, Bool.false_eq_true, if_false]
    rw [if_pos hlang]
    simp only [h2]

theorem validateTranslations_key_diff_witness :
    (validateTranslations fs8 0 [] "en" stEmpty "xx").2.valid = true ∧
    (validateTranslations fs8 0 [] "en" stEmpty "xx").2.missing_keys =
      ({"a.c"} : Finset String) ∧
    (validateTranslations fs8 0 [] "en" stEmpty "xx").2.extra_keys =
      (∅ : Finset String) ∧
    (validateTranslations fsNone 0 [] "en" stEmpty "xx").2.valid = false ∧
    (validateTranslations fsNone 0 [] "en" stEmpty "xx").2.errors ≠ [] := by
  have h := validateTranslations_key_diff
  have hrun := h.2.2.2.2 fs8 0 [] "en" stEmpty
    (loadMessages fs8 0 [] stEmpty "xx" true).1
    (loadMessages fs8 0 []
      (loadMessages fs8 0 [] stEmpty "xx" true).1 "en" false).1
    "xx" treeXX treeEN rfl (by simp [treeXX]) (by decide) rfl
  have hempty := h.2.2.2.1 fsNone 0 [] "en" stEmpty "xx" rfl
  refine ⟨?_, ?_, ?_, ?_, ?_⟩
  · rw [hrun]
  · rw [hrun]
    exact h.2.1
  · rw [hrun]
    exact h.2.2.1
  · rw [hempty]
  · rw [hempty]
    simp

end MXH
